import Mathlib

/-!
Verification development for the ProtVista protein features viewer.

The embedding covers the view-state logic of the category/type track viewer
(`pftv-aux-proteinCategoryFTViewer`): the linear coordinate scale, feature
placement, zoom in/out, horizontal translation, open/close of collapsible
categories, feature selection on click, and the load-completion and region
highlighting logic of `FeaturesViewer`.

Pixel and amino-acid coordinates are JavaScript numbers in the source; we
model them as rationals.  Constants supplied by the auxiliary module
`pftv-aux-utils` (`FTVUtils`), whose source is not part of the repository
snapshot, are kept as abstract parameters bundled in `FTVEnv`.
-/

namespace ProtVista

/-- A `d3.scale.linear()` scale with domain `[d0, d1]` and range `[r0, r1]`. -/
structure LinearScale where
  d0 : ℚ
  d1 : ℚ
  r0 : ℚ
  r1 : ℚ
deriving DecidableEq

/-- Evaluation of a linear scale: linear interpolation from domain to range. -/
def LinearScale.apply (s : LinearScale) (x : ℚ) : ℚ :=
  s.r0 + (x - s.d0) * (s.r1 - s.r0) / (s.d1 - s.d0)

/-- Constants provided by the auxiliary module `pftv-aux-utils` (`FTVUtils`):
`getMaxPixelAA()`, `getTitlesWidth()` and `getMarginLeftRight()`.  The module
is not among the repository sources, so the values are kept abstract; the
viewer copies the margins into `self._margin` during `_init`. -/
structure FTVEnv where
  maxPixelAA : ℚ
  titlesWidth : ℚ
  marginLeft : ℚ
  marginRight : ℚ
deriving DecidableEq

/-- The per-instance view state of a `ProteinCategoryFTViewer` track
(category or type): the fields of `self` read and written by `_initScale`,
`_zoomInOut` and `_translate`.  `transformX` is the horizontal component of
the `translate(..)` transform put on `self._featureSVGGroup`. -/
structure VState where
  width : ℚ
  sequenceLength : ℕ
  svgWidthWithMargin : ℚ
  xScale : LinearScale
  pixelPerAA : ℚ
  zoomed : Bool
  currentFirstVisibleAA : ℚ
  transformX : ℚ
deriving DecidableEq

/-- `_initScale` (pftv-aux-proteinCategoryFTViewer, lines 200-213): fit the
scale `[1, sequenceLength+1] → [margin.left, svgWidthWithMargin - margin.right]`;
if that gives more than `FTVUtils.getMaxPixelAA()` pixels per amino acid,
recompute the svg width so each amino acid gets exactly the cap. -/
def initScale (env : FTVEnv) (v : VState) : VState :=
  let xScale1 : LinearScale :=
    ⟨1, (v.sequenceLength : ℚ) + 1, env.marginLeft, v.svgWidthWithMargin - env.marginRight⟩
  let pixelPerAA1 := xScale1.apply 2 - xScale1.apply 1
  if pixelPerAA1 > env.maxPixelAA then
    let svgW := env.marginLeft + (v.sequenceLength : ℚ) * env.maxPixelAA + env.marginRight
    let xScale2 : LinearScale :=
      ⟨1, (v.sequenceLength : ℚ) + 1, env.marginLeft, svgW - env.marginRight⟩
    { v with
      svgWidthWithMargin := svgW
      xScale := xScale2
      pixelPerAA := xScale2.apply 2 - xScale2.apply 1 }
  else
    { v with xScale := xScale1, pixelPerAA := pixelPerAA1 }

/-- The overview layout `_init` gives a fresh instance: svg width from the
configured width minus the titles width, then the scale fitted by
`_initScale`; zooming out re-runs exactly this computation. -/
def overviewOf (env : FTVEnv) (v : VState) : VState :=
  initScale env { v with svgWidthWithMargin := v.width - env.titlesWidth }

/-- The `y`/height constants grouped in `self._ftPosAndHeight`. -/
structure FtPosAndHeight where
  positionY : ℚ
  positionYLine : ℚ
  positionHLine : ℚ
  positionH : ℚ
  bridgeY : ℚ
  bridgeH : ℚ
  continuousY : ℚ
  continuousH : ℚ
deriving DecidableEq

/-- The location class of a feature (`locationType` in the JSON model). -/
inductive LocationType where
  | continuous
  | position
  | bridge
deriving DecidableEq

/-- A feature's location in amino-acid coordinates (`FTVUtils.getStart` /
`FTVUtils.getEnd`). -/
structure FeatureLoc where
  start : ℚ
  stop : ℚ
deriving DecidableEq

/-- The geometry fields `_calculatePosition` assigns onto a feature; fields a
branch does not touch stay `none`. -/
structure FeatureGeom where
  x : Option ℚ := none
  y : Option ℚ := none
  width : Option ℚ := none
  height : Option ℚ := none
  xLine : Option ℚ := none
  yLine : Option ℚ := none
  hLine : Option ℚ := none
deriving DecidableEq

/-- `_calculatePosition` (pftv-aux-proteinCategoryFTViewer, lines 830-857):
scaled `(x, y)` coordinate, width and height of a feature, depending on its
location class and on whether shapes are used for single-amino-acid
features. -/
def calculatePosition (v : VState) (pos : FtPosAndHeight) (useShapes : Bool)
    (locationType : LocationType) (f : FeatureLoc) : FeatureGeom :=
  let scaledStart := v.xScale.apply f.start
  let scaledEnd := v.xScale.apply f.stop
  match locationType with
  | LocationType.continuous =>
    { x := some scaledStart
      y := some pos.continuousY
      width := some (scaledEnd - scaledStart + v.pixelPerAA)
      height := some pos.continuousH }
  | LocationType.position =>
    if useShapes then
      let xLine := scaledStart + ((scaledEnd + v.pixelPerAA) - scaledStart) / 2
      { x := some xLine
        xLine := some xLine
        yLine := some pos.positionYLine
        hLine := some pos.positionHLine
        y := some (pos.positionYLine - pos.positionHLine) }
    else
      { x := some scaledStart
        y := some pos.positionY
        width := some (scaledEnd - scaledStart + v.pixelPerAA)
        height := some pos.positionH }
  | LocationType.bridge =>
    { x := some scaledStart
      y := some pos.bridgeY
      width := some (scaledEnd - scaledStart + v.pixelPerAA)
      height := some pos.bridgeH }

/-- For a scale with domain `[1, L+1]`, one amino acid takes
`(r1 - r0) / L` pixels. -/
theorem LinearScale.pixel_diff (L : ℕ) (r0 r1 : ℚ) :
    (LinearScale.mk 1 ((L : ℚ) + 1) r0 r1).apply 2
      - (LinearScale.mk 1 ((L : ℚ) + 1) r0 r1).apply 1 = (r1 - r0) / L := by
  unfold LinearScale.apply
  have h : ((L : ℚ) + 1) - 1 = (L : ℚ) := by ring
  simp only [h]
  ring

/-- Claim C2: feature placement uses a linear scale with domain
`[1, sequenceLength+1]` mapped onto `[margin.left, svgWidthWithMargin - margin.right]`;
a range feature gets `x = xScale(start)` and
`width = xScale(end) - xScale(start) + pixelPerAA` with
`pixelPerAA = xScale(2) - xScale(1)`, and a single-position feature drawn with
shapes gets the midpoint `x = xScale(start) + ((xScale(end) + pixelPerAA) - xScale(start)) / 2`. -/
theorem calculatePosition_scale_spec (env : FTVEnv) (v : VState)
    (pos : FtPosAndHeight) (useShapes : Bool) (f : FeatureLoc) :
    (initScale env v).xScale =
      ⟨1, (v.sequenceLength : ℚ) + 1, env.marginLeft,
        (initScale env v).svgWidthWithMargin - env.marginRight⟩ ∧
    (initScale env v).pixelPerAA =
      (initScale env v).xScale.apply 2 - (initScale env v).xScale.apply 1 ∧
    (calculatePosition (initScale env v) pos useShapes LocationType.continuous f).x =
      some ((initScale env v).xScale.apply f.start) ∧
    (calculatePosition (initScale env v) pos useShapes LocationType.continuous f).width =
      some ((initScale env v).xScale.apply f.stop - (initScale env v).xScale.apply f.start
        + (initScale env v).pixelPerAA) ∧
    (calculatePosition (initScale env v) pos true LocationType.position f).x =
      some ((initScale env v).xScale.apply f.start
        + (((initScale env v).xScale.apply f.stop + (initScale env v).pixelPerAA)
            - (initScale env v).xScale.apply f.start) / 2) := by
  unfold initScale calculatePosition
  by_cases h :
      (LinearScale.mk 1 ((v.sequenceLength : ℚ) + 1) env.marginLeft
        (v.svgWidthWithMargin - env.marginRight)).apply 2
      - (LinearScale.mk 1 ((v.sequenceLength : ℚ) + 1) env.marginLeft
        (v.svgWidthWithMargin - env.marginRight)).apply 1 > env.maxPixelAA <;>
    simp [h]

/-- The quantity `firstMaxVisiblePixel` computed by `_translate` (lines
552-556): the smallest (most negative) admissible horizontal pan, derived
from the last amino acid window that still fills the visible portion. -/
def firstMaxVisiblePixel (env : FTVEnv) (v : VState) : ℚ :=
  let usablePixels := v.svgWidthWithMargin - env.marginLeft - env.marginRight - env.maxPixelAA
  let visibleAA := usablePixels / env.maxPixelAA
  let firstMaxVisibleAA := (v.sequenceLength : ℚ) - visibleAA
  let fmvPixel := -(v.xScale.apply firstMaxVisibleAA)
  fmvPixel

/-- The body of `_translate` (lines 548-566) without the propagation loop
(`propagateToTypes = false`): zoomed out resets the transform to the origin,
zoomed in pans to `moveToAA` limited by `firstMaxVisiblePixel` and `0`. -/
def translateCore (env : FTVEnv) (moveToAA : Option ℚ) (v : VState) : VState :=
  if v.zoomed = false then
    { v with transformX := 0, currentFirstVisibleAA := 0 }
  else
    match moveToAA with
    | none => v
    | some m =>
      if m ≠ v.currentFirstVisibleAA then
        let xPan := -(v.xScale.apply m - env.marginLeft)
        let tx :=
          if firstMaxVisiblePixel env v ≤ xPan ∧ xPan ≤ 0 then xPan
          else if firstMaxVisiblePixel env v > xPan then firstMaxVisiblePixel env v
          else 0
        { v with transformX := tx, currentFirstVisibleAA := m }
      else v

/-- The body of `_zoomInOut` (lines 499-528) without the propagation loop
(`propagateToTypes = false`): toggle between the detailed scale (one amino
acid per `maxPixelAA` pixels) and the overview scale from `_initScale`, then
either translate to `moveToAA` or reset the transform. -/
def zoomInOutCore (env : FTVEnv) (moveToAA : Option ℚ) (v : VState) : VState :=
  let v1 :=
    if v.zoomed = false then
      let tempWidth := (v.sequenceLength : ℚ) * env.maxPixelAA + env.marginLeft + env.marginRight
      let xScale : LinearScale :=
        ⟨1, (v.sequenceLength : ℚ) + 1, env.marginLeft, tempWidth - env.marginRight⟩
      { v with
        svgWidthWithMargin := v.width - env.titlesWidth
        xScale := xScale
        pixelPerAA := xScale.apply 2 - xScale.apply 1
        zoomed := true }
    else
      { overviewOf env v with zoomed := false }
  match moveToAA with
  | some m => translateCore env (some m) v1
  | none => { v1 with transformX := 0, currentFirstVisibleAA := 0 }

/-- A category together with the type instances it has built
(`self._instances`); type instances carry no sub-instances of their own
(`_zoomInOut` and `_translate` recurse into them with
`propagateToTypes = false`). -/
structure CatState where
  main : VState
  instances : List VState
deriving DecidableEq

/-- Public `zoomInOut(moveToAA)` on a category:
`_zoomInOut(this, moveToAA, true, true)` — first each built type instance
receives the category's `_zoomed` and `_currentFirstVisibleAA` and is zoomed
without further propagation, then the category itself is zoomed. -/
def zoomInOut (env : FTVEnv) (moveToAA : Option ℚ) (c : CatState) : CatState :=
  let instances :=
    if c.instances.length ≠ 0 then
      c.instances.map fun i =>
        zoomInOutCore env moveToAA
          { i with
            zoomed := c.main.zoomed
            currentFirstVisibleAA := c.main.currentFirstVisibleAA }
    else c.instances
  { main := zoomInOutCore env moveToAA c.main, instances := instances }

/-- Public `translate(moveToAA)` on a category:
`_translate(this, moveToAA, true)` — same propagation pattern as zooming. -/
def translate (env : FTVEnv) (moveToAA : Option ℚ) (c : CatState) : CatState :=
  let instances :=
    if c.instances.length ≠ 0 then
      c.instances.map fun i =>
        translateCore env moveToAA
          { i with
            zoomed := c.main.zoomed
            currentFirstVisibleAA := c.main.currentFirstVisibleAA }
    else c.instances
  { main := translateCore env moveToAA c.main, instances := instances }

/-- Zooming always flips the `_zoomed` flag; neither branch depends on
anything but the current flag. -/
theorem zoomInOutCore_zoomed (env : FTVEnv) (moveToAA : Option ℚ) (v : VState) :
    (zoomInOutCore env moveToAA v).zoomed = !v.zoomed := by
  unfold zoomInOutCore translateCore
  cases hz : v.zoomed <;> cases moveToAA <;>
    simp [hz, overviewOf, initScale] <;>
    split <;> simp_all <;> split <;> simp_all

/-- The first visible amino acid after a zoom depends only on the previous
`_zoomed` flag, the previous value, and `moveToAA`. -/
theorem zoomInOutCore_currentFirstVisibleAA (env : FTVEnv) (moveToAA : Option ℚ)
    (v : VState) :
    (zoomInOutCore env moveToAA v).currentFirstVisibleAA =
      match moveToAA with
      | none => 0
      | some m => if v.zoomed = false then (if m ≠ v.currentFirstVisibleAA then m
          else v.currentFirstVisibleAA) else 0 := by
  unfold zoomInOutCore translateCore
  cases hz : v.zoomed <;> cases moveToAA <;>
    simp [hz, overviewOf, initScale] <;>
    split <;> simp_all <;> split <;> simp_all

/-- Translation never changes the `_zoomed` flag. -/
theorem translateCore_zoomed (env : FTVEnv) (moveToAA : Option ℚ) (v : VState) :
    (translateCore env moveToAA v).zoomed = v.zoomed := by
  unfold translateCore
  cases hz : v.zoomed <;> cases moveToAA <;> simp [hz] <;> split <;> simp_all

/-- Translation never changes the pixels-per-amino-acid ratio. -/
theorem translateCore_pixelPerAA (env : FTVEnv) (moveToAA : Option ℚ) (v : VState) :
    (translateCore env moveToAA v).pixelPerAA = v.pixelPerAA := by
  unfold translateCore
  cases hz : v.zoomed <;> cases moveToAA <;> simp [hz] <;> split <;> simp_all

/-- Translating a zoomed-in instance to `m` always leaves `m` as the first
visible amino acid; a zoomed-out instance goes back to `0`. -/
theorem translateCore_currentFirstVisibleAA (env : FTVEnv) (m : ℚ) (v : VState) :
    (translateCore env (some m) v).currentFirstVisibleAA =
      if v.zoomed = false then 0 else if m ≠ v.currentFirstVisibleAA then m
        else v.currentFirstVisibleAA := by
  unfold translateCore
  cases hz : v.zoomed <;> simp [hz] <;> split <;> simp_all

/-- Claim C1: `zoomInOut(moveToAA)` on a category propagates the zoom state
to every built type instance — each instance receives the category's
`_zoomed` flag and `_currentFirstVisibleAA` before being zoomed itself and
does not propagate further — so afterwards every type instance carries the
same `_zoomed` value and the same first visible amino acid as the
category. -/
theorem zoomInOut_propagates_state (env : FTVEnv) (moveToAA : Option ℚ) (c : CatState) :
    ∀ i ∈ (zoomInOut env moveToAA c).instances,
      i.zoomed = (zoomInOut env moveToAA c).main.zoomed ∧
      i.currentFirstVisibleAA = (zoomInOut env moveToAA c).main.currentFirstVisibleAA := by
  intro i hi
  unfold zoomInOut at hi ⊢
  by_cases hlen : c.instances.length ≠ 0
  · rw [if_pos hlen] at hi
    rcases List.mem_map.mp hi with ⟨j, _, rfl⟩
    refine ⟨?_, ?_⟩
    · rw [zoomInOutCore_zoomed, zoomInOutCore_zoomed]
    · rw [zoomInOutCore_currentFirstVisibleAA, zoomInOutCore_currentFirstVisibleAA]
  · rw [not_ne_iff, List.length_eq_zero] at hlen
    simp [hlen] at hi

/-- A sample environment: cap of 2 pixels per amino acid, 100px of titles,
10px margins. -/
def sampleEnv : FTVEnv := ⟨2, 100, 10, 10⟩

/-- Seed state before layout: configured width 300, sequence of 50 amino
acids. -/
def sampleBase : VState :=
  { width := 300, sequenceLength := 50, svgWidthWithMargin := 0, xScale := ⟨0, 0, 0, 0⟩,
    pixelPerAA := 0, zoomed := false, currentFirstVisibleAA := 0, transformX := 0 }

/-- The overview state `_init` produces for the sample configuration: the
natural scale would give `180 / 50 = 3.6` pixels per amino acid, above the
cap of `2`, so the svg width is recomputed to `10 + 50 * 2 + 10 = 120`. -/
def sampleOverview : VState :=
  { width := 300, sequenceLength := 50, svgWidthWithMargin := 120,
    xScale := ⟨1, 51, 10, 110⟩, pixelPerAA := 2, zoomed := false,
    currentFirstVisibleAA := 0, transformX := 0 }

/-- A sample category holding one built type instance. -/
def sampleCat : CatState := { main := sampleOverview, instances := [sampleOverview] }

/-- The state the sample type instance reaches inside `zoomInOut`. -/
def sampleZoomedInstance : VState :=
  zoomInOutCore sampleEnv none
    { sampleOverview with
      zoomed := sampleCat.main.zoomed
      currentFirstVisibleAA := sampleCat.main.currentFirstVisibleAA }

theorem zoomInOut_propagates_state_witness :
    sampleZoomedInstance ∈ (zoomInOut sampleEnv none sampleCat).instances ∧
    (sampleZoomedInstance.zoomed = (zoomInOut sampleEnv none sampleCat).main.zoomed ∧
      sampleZoomedInstance.currentFirstVisibleAA =
        (zoomInOut sampleEnv none sampleCat).main.currentFirstVisibleAA) :=
  have hmem : sampleZoomedInstance ∈ (zoomInOut sampleEnv none sampleCat).instances := by
    have h : (zoomInOut sampleEnv none sampleCat).instances = [sampleZoomedInstance] := rfl
    rw [h]
    exact List.mem_singleton.mpr rfl
  ⟨hmem, zoomInOut_propagates_state sampleEnv none sampleCat sampleZoomedInstance hmem⟩

/-- The branching `_translate` uses on the pan value is exactly a clamp to
`[a, 0]` whenever the interval is well formed (`a ≤ 0`). -/
theorem clamp_if_eq (a x : ℚ) (ha : a ≤ 0) :
    (if a ≤ x ∧ x ≤ 0 then x else if a > x then a else 0) = max a (min x 0) := by
  by_cases h1 : a ≤ x ∧ x ≤ 0
  · rw [if_pos h1, min_eq_left h1.2, max_eq_right h1.1]
  · rw [if_neg h1]
    by_cases h2 : a > x
    · rw [if_pos h2, min_eq_left (by linarith), max_eq_left (le_of_lt h2)]
    · rw [if_neg h2]
      have hx : 0 < x := by
        rcases not_and_or.mp h1 with h | h
        · exact absurd (le_of_not_lt h2) h
        · exact lt_of_not_le h
      rw [min_eq_right hx.le, max_eq_right ha]

/-- A zoomed-in translation to a new amino acid applies the pan offset
clamped to `[firstMaxVisiblePixel, 0]`. -/
theorem translateCore_transformX_pan (env : FTVEnv) (m : ℚ) (v : VState)
    (hz : v.zoomed = true) (hm : m ≠ v.currentFirstVisibleAA)
    (hf : firstMaxVisiblePixel env v ≤ 0) :
    (translateCore env (some m) v).transformX =
      max (firstMaxVisiblePixel env v) (min (-(v.xScale.apply m - env.marginLeft)) 0) := by
  unfold translateCore
  simp only [hz, Bool.true_eq_false, if_false, hm, ne_eq, not_false_iff, if_true]
  exact clamp_if_eq _ _ hf

/-- Claim C3: `translate(moveToAA)` propagates to every built type instance
(copying `_zoomed` and `_currentFirstVisibleAA`, without further
propagation); a zoomed-out instance resets the transform to the origin with
`_currentFirstVisibleAA = 0`; a zoomed-in instance moving to a new amino
acid applies the pan `-(xScale(moveToAA) - margin.left)` clamped to
`[firstMaxVisiblePixel, 0]` and records `moveToAA` as first visible. -/
theorem translate_propagates_and_pans (env : FTVEnv) (c : CatState) (m : ℚ) :
    (∀ i ∈ (translate env (some m) c).instances,
        i.zoomed = c.main.zoomed ∧
        i.currentFirstVisibleAA =
          (translate env (some m) c).main.currentFirstVisibleAA) ∧
    (c.main.zoomed = false →
        (translate env (some m) c).main.transformX = 0 ∧
        (translate env (some m) c).main.currentFirstVisibleAA = 0) ∧
    (c.main.zoomed = true →
        (translate env (some m) c).main.currentFirstVisibleAA = m ∧
        (m ≠ c.main.currentFirstVisibleAA → firstMaxVisiblePixel env c.main ≤ 0 →
          (translate env (some m) c).main.transformX =
            max (firstMaxVisiblePixel env c.main)
              (min (-(c.main.xScale.apply m - env.marginLeft)) 0))) := by
  refine ⟨?_, ?_, ?_⟩
  · intro i hi
    unfold translate at hi
    by_cases hlen : c.instances.length ≠ 0
    · rw [if_pos hlen] at hi
      rcases List.mem_map.mp hi with ⟨j, _, rfl⟩
      refine ⟨?_, ?_⟩
      · rw [translateCore_zoomed]
      · show _ = (translate env (some m) c).main.currentFirstVisibleAA
        unfold translate
        rw [translateCore_currentFirstVisibleAA, translateCore_currentFirstVisibleAA]
    · rw [not_ne_iff, List.length_eq_zero] at hlen
      simp [hlen] at hi
  · intro hz
    unfold translate translateCore
    simp [hz]
  · intro hz
    constructor
    · unfold translate
      rw [translateCore_currentFirstVisibleAA]
      rw [if_neg (by simp [hz])]
      by_cases hmc : m = c.main.currentFirstVisibleAA
      · rw [if_neg (not_not_intro hmc)]
        exact hmc.symm
      · rw [if_pos hmc]
    · intro hm hf
      exact translateCore_transformX_pan env m c.main hz hm hf

theorem translate_propagates_and_pans_witness :
    (translate sampleEnv (some 3) sampleCat).main.transformX = 0 ∧
    (translate sampleEnv (some 3) sampleCat).main.currentFirstVisibleAA = 0 :=
  (translate_propagates_and_pans sampleEnv sampleCat 3).2.1 (by decide)

/-- The detailed scale `_zoomInOut` builds over
`tempWidth = sequenceLength * maxPixelAA + margin.left + margin.right`
gives exactly `maxPixelAA` pixels per amino acid. -/
theorem zoomIn_scale_pixelPerAA (L : ℕ) (hL : 0 < L) (mL mR cap : ℚ) :
    (LinearScale.mk 1 ((L : ℚ) + 1) mL (((L : ℚ) * cap + mL + mR) - mR)).apply 2
      - (LinearScale.mk 1 ((L : ℚ) + 1) mL (((L : ℚ) * cap + mL + mR) - mR)).apply 1
      = cap := by
  rw [LinearScale.pixel_diff]
  have h : (((L : ℚ) * cap + mL + mR) - mR) - mL = (L : ℚ) * cap := by ring
  rw [h]
  have hL' : (L : ℚ) ≠ 0 := Nat.cast_ne_zero.mpr hL.ne'
  exact mul_div_cancel_left₀ cap hL'

/-- After `_initScale` the pixels-per-amino-acid ratio never exceeds the
cap. -/
theorem initScale_pixelPerAA_le (env : FTVEnv) (v : VState)
    (hL : 0 < v.sequenceLength) :
    (initScale env v).pixelPerAA ≤ env.maxPixelAA := by
  unfold initScale
  by_cases h :
      (LinearScale.mk 1 ((v.sequenceLength : ℚ) + 1) env.marginLeft
        (v.svgWidthWithMargin - env.marginRight)).apply 2
      - (LinearScale.mk 1 ((v.sequenceLength : ℚ) + 1) env.marginLeft
        (v.svgWidthWithMargin - env.marginRight)).apply 1 > env.maxPixelAA
  · rw [if_pos h]
    show (LinearScale.mk 1 ((v.sequenceLength : ℚ) + 1) env.marginLeft
        ((env.marginLeft + (v.sequenceLength : ℚ) * env.maxPixelAA + env.marginRight)
          - env.marginRight)).apply 2 - _ ≤ _
    rw [LinearScale.pixel_diff]
    have hE : ((env.marginLeft + (v.sequenceLength : ℚ) * env.maxPixelAA + env.marginRight)
        - env.marginRight) - env.marginLeft = (v.sequenceLength : ℚ) * env.maxPixelAA := by
      ring
    rw [hE]
    have hL' : ((v.sequenceLength : ℕ) : ℚ) ≠ 0 := Nat.cast_ne_zero.mpr hL.ne'
    rw [mul_div_cancel_left₀ env.maxPixelAA hL']
  · rw [if_neg h]
    exact le_of_not_lt h

/-- Translation never changes the svg width. -/
theorem translateCore_svgWidthWithMargin (env : FTVEnv) (moveToAA : Option ℚ)
    (v : VState) :
    (translateCore env moveToAA v).svgWidthWithMargin = v.svgWidthWithMargin := by
  unfold translateCore
  cases hz : v.zoomed <;> cases moveToAA <;> simp [hz] <;> split <;> simp_all

/-- Translation never changes the scale. -/
theorem translateCore_xScale (env : FTVEnv) (moveToAA : Option ℚ) (v : VState) :
    (translateCore env moveToAA v).xScale = v.xScale := by
  unfold translateCore
  cases hz : v.zoomed <;> cases moveToAA <;> simp [hz] <;> split <;> simp_all

/-- What a zoom does to the pixels-per-amino-acid ratio: zooming in fits the
detailed scale over `tempWidth`, zooming out restores the `_initScale`
overview ratio. -/
theorem zoomInOutCore_pixelPerAA (env : FTVEnv) (moveToAA : Option ℚ) (v : VState) :
    (zoomInOutCore env moveToAA v).pixelPerAA =
      if v.zoomed = false then
        (LinearScale.mk 1 ((v.sequenceLength : ℚ) + 1) env.marginLeft
          (((v.sequenceLength : ℚ) * env.maxPixelAA + env.marginLeft + env.marginRight)
            - env.marginRight)).apply 2
        - (LinearScale.mk 1 ((v.sequenceLength : ℚ) + 1) env.marginLeft
          (((v.sequenceLength : ℚ) * env.maxPixelAA + env.marginLeft + env.marginRight)
            - env.marginRight)).apply 1
      else (overviewOf env v).pixelPerAA := by
  unfold zoomInOutCore
  cases hz : v.zoomed <;> cases moveToAA <;>
    simp [hz, translateCore_pixelPerAA]

/-- Zooming out reinstates the `_initScale` overview svg width and scale. -/
theorem zoomInOutCore_overview_fields (env : FTVEnv) (moveToAA : Option ℚ)
    (v : VState) (hz : v.zoomed = true) :
    (zoomInOutCore env moveToAA v).svgWidthWithMargin =
      (overviewOf env v).svgWidthWithMargin ∧
    (zoomInOutCore env moveToAA v).xScale = (overviewOf env v).xScale := by
  unfold zoomInOutCore
  cases moveToAA <;>
    simp [hz, translateCore_svgWidthWithMargin, translateCore_xScale]

/-- Neither zooming nor translating changes the configured width or the
sequence length. -/
theorem zoomInOutCore_width_seq (env : FTVEnv) (moveToAA : Option ℚ) (v : VState) :
    (zoomInOutCore env moveToAA v).width = v.width ∧
    (zoomInOutCore env moveToAA v).sequenceLength = v.sequenceLength := by
  unfold zoomInOutCore translateCore overviewOf initScale
  cases hz : v.zoomed <;> cases moveToAA <;>
    simp [hz] <;> split <;> simp_all <;> split <;> simp_all

/-- The overview fields produced by `_init`/`_initScale` depend only on the
configured width and the sequence length. -/
theorem overviewOf_eq_of (env : FTVEnv) (v w : VState)
    (hw : v.width = w.width) (hs : v.sequenceLength = w.sequenceLength) :
    (overviewOf env v).svgWidthWithMargin = (overviewOf env w).svgWidthWithMargin ∧
    (overviewOf env v).xScale = (overviewOf env w).xScale ∧
    (overviewOf env v).pixelPerAA = (overviewOf env w).pixelPerAA := by
  unfold overviewOf initScale
  simp only [hw, hs]
  split <;> simp_all

/-- Zooming (either direction) keeps the ratio at or below the cap. -/
theorem zoomInOutCore_pixelPerAA_le (env : FTVEnv) (moveToAA : Option ℚ)
    (v : VState) (hL : 0 < v.sequenceLength) :
    (zoomInOutCore env moveToAA v).pixelPerAA ≤ env.maxPixelAA := by
  rw [zoomInOutCore_pixelPerAA]
  cases hz : v.zoomed
  · rw [if_pos rfl]
    exact le_of_eq (zoomIn_scale_pixelPerAA v.sequenceLength hL env.marginLeft
      env.marginRight env.maxPixelAA)
  · rw [if_neg (by simp [hz])]
    exact initScale_pixelPerAA_le env _ hL

/-- Claim C10: the pixels-per-amino-acid ratio never exceeds
`FTVUtils.getMaxPixelAA()`: `_initScale` recomputes the svg width to
`margin.left + sequenceLength * maxPixelAA + margin.right` whenever the
natural scale would exceed the cap (making the ratio exactly the cap), the
zoomed-in scale of `_zoomInOut` also yields exactly the cap, and the
invariant `pixelPerAA ≤ maxPixelAA` holds after initialization and after
every zoom. -/
theorem pixelPerAA_cap_invariant (env : FTVEnv) (v : VState)
    (hL : 0 < v.sequenceLength) :
    (initScale env v).pixelPerAA ≤ env.maxPixelAA ∧
    ((LinearScale.mk 1 ((v.sequenceLength : ℚ) + 1) env.marginLeft
        (v.svgWidthWithMargin - env.marginRight)).apply 2
      - (LinearScale.mk 1 ((v.sequenceLength : ℚ) + 1) env.marginLeft
        (v.svgWidthWithMargin - env.marginRight)).apply 1 > env.maxPixelAA →
      (initScale env v).svgWidthWithMargin =
        env.marginLeft + (v.sequenceLength : ℚ) * env.maxPixelAA + env.marginRight ∧
      (initScale env v).pixelPerAA = env.maxPixelAA) ∧
    (∀ (moveToAA : Option ℚ) (w : VState), 0 < w.sequenceLength →
      (zoomInOutCore env moveToAA w).pixelPerAA ≤ env.maxPixelAA) := by
  refine ⟨initScale_pixelPerAA_le env v hL, ?_, ?_⟩
  · intro h
    unfold initScale
    rw [if_pos h]
    refine ⟨rfl, ?_⟩
    show (LinearScale.mk 1 ((v.sequenceLength : ℚ) + 1) env.marginLeft
        ((env.marginLeft + (v.sequenceLength : ℚ) * env.maxPixelAA + env.marginRight)
          - env.marginRight)).apply 2 - _ = _
    rw [LinearScale.pixel_diff]
    have hE : ((env.marginLeft + (v.sequenceLength : ℚ) * env.maxPixelAA + env.marginRight)
        - env.marginRight) - env.marginLeft = (v.sequenceLength : ℚ) * env.maxPixelAA := by
      ring
    rw [hE]
    exact mul_div_cancel_left₀ env.maxPixelAA (Nat.cast_ne_zero.mpr hL.ne')
  · intro moveToAA w hLw
    exact zoomInOutCore_pixelPerAA_le env moveToAA w hLw

theorem pixelPerAA_cap_invariant_witness :
    (initScale sampleEnv sampleBase).pixelPerAA ≤ sampleEnv.maxPixelAA :=
  (pixelPerAA_cap_invariant sampleEnv sampleBase (by decide)).1

/-- Claim C5: `zoomInOut` toggles between exactly two view states — every
call flips `_zoomed`; from a zoomed-out overview state one call with no
`moveToAA` yields the detailed view (`pixelPerAA` equal to
`FTVUtils.getMaxPixelAA()`, transform reset, `_currentFirstVisibleAA = 0`)
and a second call with no `moveToAA` restores the overview state (same
`_svgWidthWithMargin`, same `_initScale` scale, `_zoomed` false,
`_currentFirstVisibleAA` 0). -/
theorem zoomInOut_toggle (env : FTVEnv) (c : CatState)
    (hz : c.main.zoomed = false) (hL : 0 < c.main.sequenceLength)
    (hW : c.main.svgWidthWithMargin = (overviewOf env c.main).svgWidthWithMargin)
    (hS : c.main.xScale = (overviewOf env c.main).xScale)
    (hP : c.main.pixelPerAA = (overviewOf env c.main).pixelPerAA) :
    (∀ (moveToAA : Option ℚ) (d : CatState),
        (zoomInOut env moveToAA d).main.zoomed = !d.main.zoomed) ∧
    (zoomInOut env none c).main.zoomed = true ∧
    (zoomInOut env none c).main.pixelPerAA = env.maxPixelAA ∧
    (zoomInOut env none c).main.transformX = 0 ∧
    (zoomInOut env none c).main.currentFirstVisibleAA = 0 ∧
    (zoomInOut env none (zoomInOut env none c)).main.zoomed = false ∧
    (zoomInOut env none (zoomInOut env none c)).main.currentFirstVisibleAA = 0 ∧
    (zoomInOut env none (zoomInOut env none c)).main.svgWidthWithMargin =
      c.main.svgWidthWithMargin ∧
    (zoomInOut env none (zoomInOut env none c)).main.xScale = c.main.xScale ∧
    (zoomInOut env none (zoomInOut env none c)).main.pixelPerAA = c.main.pixelPerAA := by
  have hmain : ∀ (mo : Option ℚ) (d : CatState),
      (zoomInOut env mo d).main = zoomInOutCore env mo d.main := fun _ _ => rfl
  have h1 : (zoomInOut env none c).main = zoomInOutCore env none c.main := hmain none c
  have h2 : (zoomInOut env none (zoomInOut env none c)).main =
      zoomInOutCore env none (zoomInOutCore env none c.main) := by
    rw [hmain, h1]
  have hz1 : (zoomInOutCore env none c.main).zoomed = true := by
    rw [zoomInOutCore_zoomed, hz]
    rfl
  have hws : (zoomInOutCore env none c.main).width = c.main.width ∧
      (zoomInOutCore env none c.main).sequenceLength = c.main.sequenceLength :=
    zoomInOutCore_width_seq env none c.main
  have hov := overviewOf_eq_of env (zoomInOutCore env none c.main) c.main hws.1 hws.2
  have hfields := zoomInOutCore_overview_fields env none (zoomInOutCore env none c.main) hz1
  refine ⟨fun mo d => by rw [hmain, zoomInOutCore_zoomed], ?_, ?_, ?_, ?_, ?_, ?_, ?_, ?_, ?_⟩
  · rw [h1, hz1]
  · rw [h1, zoomInOutCore_pixelPerAA, if_pos hz]
    exact zoomIn_scale_pixelPerAA c.main.sequenceLength hL env.marginLeft
      env.marginRight env.maxPixelAA
  · rw [h1]
    unfold zoomInOutCore
    simp [hz]
  · rw [h1, zoomInOutCore_currentFirstVisibleAA]
  · rw [h2, zoomInOutCore_zoomed, hz1]
    rfl
  · rw [h2, zoomInOutCore_currentFirstVisibleAA]
  · rw [h2, hfields.1, hov.1, ← hW]
  · rw [h2, hfields.2, hov.2.1, ← hS]
  · rw [h2, zoomInOutCore_pixelPerAA, if_neg (by simp [hz1]), hov.2.2, ← hP]

/-- The sample overview state is a fixed point of the `_init` layout
computation. -/
theorem overviewOf_sampleOverview :
    overviewOf sampleEnv sampleOverview = sampleOverview := by
  unfold overviewOf initScale sampleEnv sampleOverview
  rw [if_pos (by norm_num [LinearScale.apply])]
  norm_num [LinearScale.apply]

theorem zoomInOut_toggle_witness :
    (zoomInOut sampleEnv none sampleCat).main.pixelPerAA = sampleEnv.maxPixelAA :=
  (zoomInOut_toggle sampleEnv sampleCat rfl (by decide)
    (by rw [show sampleCat.main = sampleOverview from rfl, overviewOf_sampleOverview])
    (by rw [show sampleCat.main = sampleOverview from rfl, overviewOf_sampleOverview])
    (by rw [show sampleCat.main = sampleOverview from rfl, overviewOf_sampleOverview])).2.2.1

/-- The first character of a collapsible category title:
`FTVUtils.ARROW_RIGHT` while closed, `FTVUtils.ARROW_DOWN` while open
(`_initCategoryTitle` puts the right arrow there initially). -/
inductive Arrow where
  | right
  | down
deriving DecidableEq

/-- The display state `open`/`close` manage on a category
(pftv-aux-proteinCategoryFTViewer, lines 902-926): the title arrow, the
visibility of the category overview features and of the type tracks, the
height applied through `_applyHeight`, and the triggered events. -/
structure CatDisplay where
  collapsible : Bool
  arrow : Arrow
  overviewHidden : Bool
  typesHidden : Bool
  appliedHeight : ℚ
  titleHeight : ℚ
  height : ℚ
  hasBeenOpen : Bool
  events : List String
deriving DecidableEq

/-- `open()` (lines 902-911) followed by `_openCategory` (lines 574-601):
only a collapsible category whose title still starts with the right arrow
changes — the title flips to the down arrow, the overview features are
hidden, the type tracks shown, the title height applied, the types built on
first opening, and `categoryOpen` triggered. -/
def openCat (s : CatDisplay) : CatDisplay :=
  if s.collapsible = true then
    if s.arrow = Arrow.right then
      { s with
        arrow := Arrow.down
        overviewHidden := true
        typesHidden := false
        appliedHeight := s.titleHeight
        hasBeenOpen := true
        events := s.events ++ ["categoryOpen"] }
    else s
  else s

/-- `close()` (lines 917-926) followed by `_closeCategory` (lines 658-673):
only a collapsible category whose title does not start with the right arrow
changes — the title flips back to the right arrow, the overview features are
shown again, the type tracks hidden, the category height restored, and
`categoryClose` triggered. -/
def closeCat (s : CatDisplay) : CatDisplay :=
  if s.collapsible = true then
    if s.arrow ≠ Arrow.right then
      { s with
        arrow := Arrow.right
        overviewHidden := false
        typesHidden := true
        appliedHeight := s.height
        events := s.events ++ ["categoryClose"] }
    else s
  else s

/-- Claim C4: on a collapsible category, `open()` changes state only when
the title starts with the right arrow (then it hides the overview, shows
the types and triggers `categoryOpen`), `close()` changes state only when
the category is open (then it restores the overview display and triggers
`categoryClose`); `open()` on an open category and `close()` on a closed
one are no-ops, and `close()` after `open()` restores the collapsed display
state and the category height. -/
theorem open_close_spec (s : CatDisplay) (hc : s.collapsible = true) :
    (s.arrow = Arrow.down → openCat s = s) ∧
    (s.arrow = Arrow.right → closeCat s = s) ∧
    (s.arrow = Arrow.right →
      (openCat s).overviewHidden = true ∧ (openCat s).typesHidden = false ∧
      (openCat s).arrow = Arrow.down ∧ (openCat s).appliedHeight = s.titleHeight ∧
      (openCat s).events = s.events ++ ["categoryOpen"]) ∧
    (s.arrow = Arrow.down →
      (closeCat s).overviewHidden = false ∧ (closeCat s).typesHidden = true ∧
      (closeCat s).arrow = Arrow.right ∧ (closeCat s).appliedHeight = s.height ∧
      (closeCat s).events = s.events ++ ["categoryClose"]) ∧
    (s.arrow = Arrow.right → s.overviewHidden = false → s.typesHidden = true →
      s.appliedHeight = s.height →
      closeCat (openCat s) =
        { s with
          hasBeenOpen := true
          events := s.events ++ ["categoryOpen", "categoryClose"] }) := by
  refine ⟨?_, ?_, ?_, ?_, ?_⟩
  · intro ha
    unfold openCat
    rw [if_pos hc, if_neg (by simp [ha])]
  · intro ha
    unfold closeCat
    rw [if_pos hc, if_neg (not_not_intro ha)]
  · intro ha
    unfold openCat
    rw [if_pos hc, if_pos ha]
    exact ⟨rfl, rfl, rfl, rfl, rfl⟩
  · intro ha
    unfold closeCat
    rw [if_pos hc, if_pos (by simp [ha])]
    exact ⟨rfl, rfl, rfl, rfl, rfl⟩
  · intro ha hov hty hh
    unfold openCat closeCat
    rw [if_pos hc, if_pos ha, if_pos hc, if_pos (by simp)]
    cases s
    simp_all

/-- A closed collapsible sample category display. -/
def sampleDisplay : CatDisplay :=
  { collapsible := true, arrow := Arrow.right, overviewHidden := false,
    typesHidden := true, appliedHeight := 32, titleHeight := 20, height := 32,
    hasBeenOpen := false, events := [] }

theorem open_close_spec_witness :
    sampleDisplay.collapsible = true ∧
    (openCat sampleDisplay).overviewHidden = true :=
  ⟨rfl, ((open_close_spec sampleDisplay rfl).2.2.1 rfl).1⟩

/-- Whether a track holds a whole category or a single type
(`FTVUtils.getTrackMode`); categories group types, types group locations —
only these two levels exist in the data model. -/
inductive TrackMode where
  | category
  | type
deriving DecidableEq

/-- The options object passed to the `ProteinCategoryFTViewer` constructor;
a `none` field means the caller omitted it and the default applies. -/
structure OptionsIn where
  width : Option ℚ := none
  darkBackground : Option Bool := none
  useShapes : Option Bool := none
  useTooltips : Option Bool := none
  clickable : Option Bool := none
  clickableStyle : Option Bool := none
  collapsible : Option Bool := none
  ftHeight : Option ℚ := none
  transparency : Option ℚ := none
deriving DecidableEq

/-- The fully populated `self.opt` option record. -/
structure Opts where
  width : ℚ
  darkBackground : Bool
  useShapes : Bool
  useTooltips : Bool
  clickable : Bool
  clickableStyle : Bool
  collapsible : Bool
  ftHeight : ℚ
  transparency : ℚ
deriving DecidableEq

/-- `_.extend(_.extend(\x7b\x7d, _defaultOptions), options)`: provided
options override the `_defaultOptions` values (lines 86-96). -/
def extendOptions (o : OptionsIn) : Opts :=
  { width := o.width.getD 1200
    darkBackground := o.darkBackground.getD true
    useShapes := o.useShapes.getD true
    useTooltips := o.useTooltips.getD false
    clickable := o.clickable.getD true
    clickableStyle := o.clickableStyle.getD true
    collapsible := o.collapsible.getD false
    ftHeight := o.ftHeight.getD 10
    transparency := o.transparency.getD (1 / 2) }

/-- Option processing in `_constructor` (lines 109-129): defaults are
merged, a clickable instance forces the click-on-me style, a variants track
forces shapes off, and a type track forces `collapsible` off. -/
def constructorOpts (options : OptionsIn) (mode : TrackMode) (isVariants : Bool) :
    Opts :=
  let opt := extendOptions options
  let opt := if opt.clickable = true then { opt with clickableStyle := true } else opt
  let opt := if isVariants then { opt with useShapes := false } else opt
  if mode = TrackMode.type then { opt with collapsible := false } else opt

/-- The options `_buildTypeInstances` (lines 608-651) passes to each type
instance it creates: the parent's display options with `clickable: false`
and `collapsible: false`, processed by the constructor over the type track
(`category: types[posType]`, which is in type track mode). -/
def buildTypeInstanceOpts (parent : Opts) (isVariants : Bool) : Opts :=
  constructorOpts
    { width := some parent.width
      darkBackground := some parent.darkBackground
      useShapes := some parent.useShapes
      useTooltips := some parent.useTooltips
      clickable := some false
      clickableStyle := some parent.clickableStyle
      collapsible := some false
      ftHeight := some parent.ftHeight
      transparency := some parent.transparency }
    TrackMode.type isVariants

/-- Claim C6: the category/type hierarchy has exactly two levels — an
instance constructed over a type track gets `opt.collapsible` forced to
`false` regardless of the option passed, every type instance a category
builds is created with `collapsible` and `clickable` false, and a
non-collapsible instance never opens, hence never builds sub-instances. -/
theorem two_level_hierarchy :
    (∀ (o : OptionsIn) (isVariants : Bool),
      (constructorOpts o TrackMode.type isVariants).collapsible = false) ∧
    (∀ (parent : Opts) (isVariants : Bool),
      (buildTypeInstanceOpts parent isVariants).collapsible = false ∧
      (buildTypeInstanceOpts parent isVariants).clickable = false) ∧
    (∀ s : CatDisplay, s.collapsible = false → openCat s = s) := by
  refine ⟨?_, ?_, ?_⟩
  · intro o isVariants
    unfold constructorOpts
    rw [if_pos rfl]
  · intro parent isVariants
    unfold buildTypeInstanceOpts constructorOpts extendOptions
    rw [if_pos rfl]
    refine ⟨rfl, ?_⟩
    split <;> split <;> simp
  · intro s hs
    unfold openCat
    rw [if_neg (by simp [hs])]

/-- The state a jQuery deferred data loader ends in. -/
inductive LoaderState where
  | resolved
  | rejected
deriving DecidableEq

/-- What the load-completion handler does to the target element. -/
structure LoadOutcome where
  cleared : Bool
  text : Option String
  events : List String
deriving DecidableEq

/-- The completion callback of `fv.load` (FeaturesViewer.js, lines 379-394),
run once every delegate resolved: count the rejected loaders; when all were
rejected, or no feature data was accumulated, empty the element and show a
message and dispatch the matching event; otherwise leave the rendered
content in place.  `data` stands for the accumulated `fv.data` entries. -/
def loadFinish (loaders : List LoaderState) (data : List String) : LoadOutcome :=
  let rejected := loaders.filter fun l => l == LoaderState.rejected
  if rejected.length = loaders.length ∨ data.length = 0 then
    if rejected.length = loaders.length then
      { cleared := true
        text := some "Sorry, data could not be retrieved at this time, please try again later."
        events := ["noDataRetrieved"] }
    else if data.length = 0 then
      { cleared := true
        text := some "There are no features available for this protein."
        events := ["noDataAvailable"] }
    else
      { cleared := true, text := none, events := [] }
  else
    { cleared := false, text := none, events := [] }

/-- All loaders rejected exactly when the rejected filter keeps every
element. -/
theorem loadFinish_filter_length (loaders : List LoaderState) :
    (loaders.filter fun l => l == LoaderState.rejected).length = loaders.length ↔
      ∀ l ∈ loaders, l = LoaderState.rejected := by
  rw [List.filter_length_eq_length]
  constructor
  · intro h l hl
    exact eq_of_beq (h l hl)
  · intro h l hl
    exact beq_iff_eq.mpr (h l hl)

/-- Claim C7: when loading finishes, all loaders rejected empties the
element, shows the sorry-message and dispatches `noDataRetrieved`; at least
one success with no accumulated feature data shows the no-features message
and dispatches `noDataAvailable`; otherwise the rendered content is left in
place. -/
theorem load_finish_spec (loaders : List LoaderState) (data : List String) :
    ((∀ l ∈ loaders, l = LoaderState.rejected) →
      loadFinish loaders data =
        { cleared := true
          text := some "Sorry, data could not be retrieved at this time, please try again later."
          events := ["noDataRetrieved"] }) ∧
    ((∃ l ∈ loaders, l = LoaderState.resolved) → data = [] →
      loadFinish loaders data =
        { cleared := true
          text := some "There are no features available for this protein."
          events := ["noDataAvailable"] }) ∧
    ((∃ l ∈ loaders, l = LoaderState.resolved) → data ≠ [] →
      loadFinish loaders data = { cleared := false, text := none, events := [] }) := by
  have hres : (∃ l ∈ loaders, l = LoaderState.resolved) →
      ¬(loaders.filter fun l => l == LoaderState.rejected).length = loaders.length := by
    rintro ⟨l, hl, rfl⟩ hlen
    exact absurd ((loadFinish_filter_length loaders).mp hlen _ hl) (by simp)
  refine ⟨?_, ?_, ?_⟩
  · intro hall
    unfold loadFinish
    have hlen := (loadFinish_filter_length loaders).mpr hall
    rw [if_pos (Or.inl hlen), if_pos hlen]
  · intro hex hdata
    unfold loadFinish
    rw [if_pos (Or.inr (by simp [hdata])), if_neg (hres hex), if_pos (by simp [hdata])]
  · intro hex hdata
    unfold loadFinish
    rw [if_neg]
    rw [not_or]
    exact ⟨hres hex, by simp [hdata]⟩

/-- `FeaturesViewer.prototype.highlightRegion` (FeaturesViewer.js, lines
471-487).  `begin_` and `end_` are JavaScript numbers; a `none` end models an
omitted argument.  The source reads `end = end ? (end > len ? len : end) : begin`,
so by JavaScript truthiness an end of `0` takes the default exactly like a
missing one.  The result is the stored highlight `(begin, end)` when the
`regionHighlighted` event is dispatched, and `none` when the method changes
nothing (no deselection, no highlight, no event). -/
def highlightRegion (seqLength : ℕ) (begin_ : ℚ) (end_ : Option ℚ) :
    Option (ℚ × ℚ) :=
  let b := if begin_ < 1 then 1 else begin_
  let e :=
    match end_ with
    | none => b
    | some e0 => if e0 = 0 then b else if e0 > (seqLength : ℚ) then (seqLength : ℚ) else e0
  if (1 ≤ b) ∧ (b ≤ e) ∧ (e ≤ (seqLength : ℚ)) then some (b, e) else none

/-- The behaviour claim C9 words: begin clamped to at least 1, end clamped
to at most the sequence length with only a missing end defaulting to the
clamped begin, and the event dispatched exactly when the clamped values
satisfy `1 ≤ begin ≤ end ≤ sequence length`. -/
def highlightRegionClaimed (seqLength : ℕ) (begin_ : ℚ) (end_ : Option ℚ) :
    Option (ℚ × ℚ) :=
  let b := if begin_ < 1 then 1 else begin_
  let e :=
    match end_ with
    | none => b
    | some e0 => if e0 > (seqLength : ℚ) then (seqLength : ℚ) else e0
  if (1 ≤ b) ∧ (b ≤ e) ∧ (e ≤ (seqLength : ℚ)) then some (b, e) else none

/-- Claim C9 counterexample: calling `highlightRegion(2, 0)` on a sequence
of length 3 dispatches the event with the highlight `(2, 2)` — the provided
end of `0` is falsy and defaults to the clamped begin — while the claim's
reading (a provided end is only clamped to the sequence length) predicts
that nothing happens because `2 ≤ 0` fails. -/
theorem highlightRegion_end_zero_counterexample :
    highlightRegion 3 2 (some 0) = some (2, 2) ∧
    highlightRegionClaimed 3 2 (some 0) = none := by
  constructor
  · unfold highlightRegion
    norm_num
  · unfold highlightRegionClaimed
    norm_num

/-- Claim C9 as amended: an end argument that is missing or `0` defaults to
the clamped begin; otherwise the end is clamped to at most the sequence
length; the highlight is stored and `regionHighlighted` dispatched with the
clamped values exactly when `1 ≤ begin ≤ end ≤ sequence length` holds after
clamping, and otherwise nothing changes. -/
theorem highlightRegion_amended_spec (seqLength : ℕ) (begin_ : ℚ) (end_ : Option ℚ) :
    highlightRegion seqLength begin_ end_ =
      (let b := max 1 begin_
       let e :=
         match end_ with
         | none => b
         | some e0 => if e0 = 0 then b else min e0 (seqLength : ℚ)
       if (1 ≤ b) ∧ (b ≤ e) ∧ (e ≤ (seqLength : ℚ)) then some (b, e) else none) := by
  unfold highlightRegion
  have hb : (if begin_ < 1 then 1 else begin_) = max 1 begin_ := by
    rcases lt_or_le begin_ 1 with h | h
    · rw [if_pos h, max_eq_left h.le]
    · rw [if_neg (not_lt.mpr h), max_eq_right h]
  rw [hb]
  cases end_ with
  | none => rfl
  | some e0 =>
    have he : (if e0 > (seqLength : ℚ) then (seqLength : ℚ) else e0) =
        min e0 (seqLength : ℚ) := by
      rcases lt_or_le (seqLength : ℚ) e0 with h | h
      · rw [if_pos h, min_eq_right h.le]
      · rw [if_neg (not_lt.mpr h), min_eq_left h]
    dsimp only
    by_cases h0 : e0 = 0
    · rw [if_pos h0, if_pos h0]
    · rw [if_neg h0, if_neg h0, he]

/-- A feature of the category model: its id and its `selected` flag (the
other json fields play no role in selection handling). -/
structure Feat where
  ftId : String
  selected : Bool
deriving DecidableEq

/-- A feature location grouping (`type.locations[..]`). -/
structure Location where
  features : List Feat
deriving DecidableEq

/-- A feature type (`category.types[..]`). -/
structure FType where
  locations : List Location
deriving DecidableEq

/-- The features model held in `self.opt.category` (the `types` shape; a
variants category flattens to one list and is handled analogously by the
`category.variants` branch of the source). -/
structure CategoryModel where
  types : List FType
deriving DecidableEq

/-- The index triple painted onto each feature svg element
(`feature.typeIndex`, `feature.locationIndex`, `feature.featureIndex`); in
the browser `obj.feature` and `_currentSelectedFeature` are references into
the model, modelled here as paths. -/
structure FeatPath where
  typeIndex : ℕ
  locationIndex : ℕ
  featureIndex : ℕ
deriving DecidableEq

/-- Replace the element at one index, leaving the list unchanged when the
index is out of range. -/
def modifyAt : List α → ℕ → (α → α) → List α
  | [], _, _ => []
  | a :: as, 0, f => f a :: as
  | a :: as, n + 1, f => a :: modifyAt as n f

theorem modifyAt_getElem? (l : List α) (i j : ℕ) (f : α → α) :
    (modifyAt l i f)[j]? = if i = j then (l[j]?).map f else l[j]? := by
  induction l generalizing i j with
  | nil => simp [modifyAt]
  | cons a as ih =>
    cases i with
    | zero =>
      cases j with
      | zero => simp [modifyAt]
      | succ j => simp [modifyAt]
    | succ n =>
      cases j with
      | zero => simp [modifyAt]
      | succ j => simp [modifyAt, ih]

/-- `category.types[t].locations[l].features[f]`: the feature a path points
at. -/
def CategoryModel.getFeat (c : CategoryModel) (p : FeatPath) : Option Feat :=
  (c.types[p.typeIndex]?).bind fun t =>
    (t.locations[p.locationIndex]?).bind fun l => l.features[p.featureIndex]?

/-- Writing the `selected` flag of the feature a path points at
(`feature.selected = ...` through the model reference). -/
def CategoryModel.setSelected (c : CategoryModel) (p : FeatPath) (b : Bool) :
    CategoryModel :=
  ⟨modifyAt c.types p.typeIndex fun t =>
    ⟨modifyAt t.locations p.locationIndex fun l =>
      ⟨modifyAt l.features p.featureIndex fun f => { f with selected := b }⟩⟩⟩

theorem getFeat_setSelected (c : CategoryModel) (p q : FeatPath) (b : Bool) :
    (c.setSelected p b).getFeat q =
      if p = q then (c.getFeat q).map fun f => { f with selected := b }
      else c.getFeat q := by
  obtain ⟨pt, pl, pf⟩ := p
  obtain ⟨qt, ql, qf⟩ := q
  unfold CategoryModel.getFeat CategoryModel.setSelected
  simp only [FeatPath.mk.injEq]
  rw [modifyAt_getElem?]
  by_cases ht : pt = qt
  · rw [if_pos ht]
    cases hty : c.types[qt]? with
    | none => simp
    | some t =>
      simp only [Option.map_some', Option.some_bind]
      rw [modifyAt_getElem?]
      by_cases hl : pl = ql
      · rw [if_pos hl]
        cases hlo : t.locations[ql]? with
        | none => simp
        | some l =>
          simp only [Option.map_some', Option.some_bind]
          rw [modifyAt_getElem?]
          by_cases hfe : pf = qf
          · rw [if_pos hfe, if_pos ⟨ht, hl, hfe⟩]
          · rw [if_neg hfe, if_neg (by tauto)]
      · rw [if_neg hl, if_neg (by tauto)]
  · rw [if_neg ht, if_neg (by tauto)]

/-- The selection state `_onInstanceFeatureClick` manages: the `clickable`
option, the features model, the `_currentSelectedFeature` reference (a path,
`none` for undefined) and the triggered events.  `_currentSelectedSVG`
always mirrors `_currentSelectedFeature` and carries no extra state. -/
structure ClickState where
  clickable : Bool
  category : CategoryModel
  currentSelectedFeature : Option FeatPath
  events : List String
deriving DecidableEq

/-- The second disjunct of the deselection test (lines 446-447):
`_currentSelectedFeature != undefined && obj.feature.ftId === _currentSelectedFeature.ftId`. -/
def currentFtIdMatches (s : ClickState) (clicked : Feat) : Bool :=
  match s.currentSelectedFeature with
  | none => false
  | some c =>
    match s.category.getFeat c with
    | none => false
    | some cf => clicked.ftId == cf.ftId

/-- `_onInstanceFeatureClick` (pftv-aux-proteinCategoryFTViewer, lines
444-478).  Clicking the selected feature (or one with the selected ftId)
deselects: both the clicked feature and the current selection are cleared
and `featureUnselected` triggered (reading `.selected` off an undefined
current selection would throw, modelled as `none`).  Otherwise any previous
selection is deselected with its `featureUnselected` event, then the
clicked feature is marked selected, looked up in the model as the new
`_currentSelectedFeature` (the same object, so the flag is set once here)
and `featureSelected` is triggered.  Not clickable: no change. -/
def onInstanceFeatureClick (s : ClickState) (p : FeatPath) : Option ClickState :=
  if s.clickable = true then
    match s.category.getFeat p with
    | none => none
    | some clicked =>
      if clicked.selected || currentFtIdMatches s clicked then
        match s.currentSelectedFeature with
        | none => none
        | some c =>
          some { s with
            category := (s.category.setSelected p false).setSelected c false
            currentSelectedFeature := none
            events := s.events ++ ["featureUnselected"] }
      else
        match s.currentSelectedFeature with
        | some c =>
          some { s with
            category := (s.category.setSelected c false).setSelected p true
            currentSelectedFeature := some p
            events := s.events ++ ["featureUnselected", "featureSelected"] }
        | none =>
          some { s with
            category := s.category.setSelected p true
            currentSelectedFeature := some p
            events := s.events ++ ["featureSelected"] }
  else some s

/-- The selection invariant: `_currentSelectedFeature` points at a feature
whose flag is set, and every feature with the flag set is the one
`_currentSelectedFeature` points at — hence at most one feature is
selected, and none is when the reference is undefined. -/
def SelInv (s : ClickState) : Prop :=
  (∀ c, s.currentSelectedFeature = some c →
    ∃ f, s.category.getFeat c = some f ∧ f.selected = true) ∧
  (∀ p f, s.category.getFeat p = some f → f.selected = true →
    s.currentSelectedFeature = some p)

/-- Claim C8: on a clickable instance, handling a feature click preserves
the invariant that at most one feature in the category model is selected and
`_currentSelectedFeature` is exactly that feature (or undefined when none):
clicking the current selection deselects it and triggers
`featureUnselected`; clicking a different feature first deselects any
previous selection (triggering its `featureUnselected`), then marks the
clicked feature selected and triggers `featureSelected`. -/
theorem click_selection_invariant (s : ClickState) (p : FeatPath) (clicked : Feat)
    (s' : ClickState) (hInv : SelInv s) (hc : s.clickable = true)
    (hf : s.category.getFeat p = some clicked)
    (hclick : onInstanceFeatureClick s p = some s') :
    SelInv s' ∧
    (∀ q r fq fr, s'.category.getFeat q = some fq → s'.category.getFeat r = some fr →
      fq.selected = true → fr.selected = true → q = r) ∧
    ((clicked.selected || currentFtIdMatches s clicked) = true →
      s'.currentSelectedFeature = none ∧
      s'.events = s.events ++ ["featureUnselected"]) ∧
    ((clicked.selected || currentFtIdMatches s clicked) = false →
      s'.currentSelectedFeature = some p ∧
      s'.category.getFeat p = some { clicked with selected := true } ∧
      (s.currentSelectedFeature = none →
        s'.events = s.events ++ ["featureSelected"]) ∧
      (∀ c, s.currentSelectedFeature = some c →
        s'.events = s.events ++ ["featureUnselected", "featureSelected"])) := by
  have huniq : ∀ t : ClickState, SelInv t →
      ∀ q r fq fr, t.category.getFeat q = some fq → t.category.getFeat r = some fr →
        fq.selected = true → fr.selected = true → q = r := by
    intro t hT q r fq fr hq hr hsq hsr
    have h1 := hT.2 q fq hq hsq
    have h2 := hT.2 r fr hr hsr
    rw [h1] at h2
    exact (Option.some.injEq _ _).mp h2
  unfold onInstanceFeatureClick at hclick
  rw [if_pos hc] at hclick
  simp only [hf] at hclick
  cases hb : clicked.selected || currentFtIdMatches s clicked with
  | true =>
    rw [hb, if_pos rfl] at hclick
    cases hcur : s.currentSelectedFeature with
    | none =>
      rw [hcur] at hclick
      exact absurd hclick (by simp)
    | some c =>
      rw [hcur] at hclick
      simp only [Option.some.injEq] at hclick
      subst hclick
      have hInv' : SelInv
          { s with
            category := (s.category.setSelected p false).setSelected c false
            currentSelectedFeature := none
            events := s.events ++ ["featureUnselected"] } := by
        constructor
        · intro c' hc'
          simp at hc'
        · intro q f hq hsel
          exfalso
          simp only [getFeat_setSelected] at hq
          by_cases hcq : c = q
          · rw [if_pos hcq] at hq
            rcases Option.map_eq_some'.mp hq with ⟨g, _, hg⟩
            rw [← hg] at hsel
            simp at hsel
          · rw [if_neg hcq] at hq
            by_cases hpq : p = q
            · rw [if_pos hpq] at hq
              rcases Option.map_eq_some'.mp hq with ⟨g, _, hg⟩
              rw [← hg] at hsel
              simp at hsel
            · rw [if_neg hpq] at hq
              have := hInv.2 q f hq hsel
              rw [hcur] at this
              exact hcq ((Option.some.injEq _ _).mp this)
      exact ⟨hInv', huniq _ hInv', fun _ => ⟨rfl, rfl⟩,
        fun hcontra => absurd hcontra (by simp)⟩
  | false =>
    rw [hb, if_neg Bool.false_ne_true] at hclick
    have hclickedsel : clicked.selected = false := by
      cases hcs : clicked.selected
      · rfl
      · rw [hcs] at hb
        simp at hb
    cases hcur : s.currentSelectedFeature with
    | some c =>
      rw [hcur] at hclick
      simp only [Option.some.injEq] at hclick
      subst hclick
      have hgetp : ((s.category.setSelected c false).setSelected p true).getFeat p =
          some { clicked with selected := true } := by
        rw [getFeat_setSelected, if_pos rfl, getFeat_setSelected]
        by_cases hcp : c = p
        · rw [if_pos hcp, hf]
          rfl
        · rw [if_neg hcp, hf]
          rfl
      have hInv' : SelInv
          { s with
            category := (s.category.setSelected c false).setSelected p true
            currentSelectedFeature := some p
            events := s.events ++ ["featureUnselected", "featureSelected"] } := by
        constructor
        · intro c' hc'
          simp only [Option.some.injEq] at hc'
          subst hc'
          exact ⟨{ clicked with selected := true }, hgetp, rfl⟩
        · intro q f hq hsel
          simp only [Option.some.injEq]
          by_cases hpq : p = q
          · exact hpq
          · exfalso
            simp only [getFeat_setSelected, if_neg hpq] at hq
            by_cases hcq : c = q
            · rw [if_pos hcq] at hq
              rcases Option.map_eq_some'.mp hq with ⟨g, _, hg⟩
              rw [← hg] at hsel
              simp at hsel
            · rw [if_neg hcq] at hq
              have := hInv.2 q f hq hsel
              rw [hcur] at this
              exact hcq ((Option.some.injEq _ _).mp this)
      refine ⟨hInv', huniq _ hInv', fun hcontra => absurd hcontra (by simp),
        fun _ => ⟨rfl, hgetp, ?_, fun c'' hc'' => rfl⟩⟩
      intro hnone
      cases hnone
    | none =>
      rw [hcur] at hclick
      simp only [Option.some.injEq] at hclick
      subst hclick
      have hgetp : (s.category.setSelected p true).getFeat p =
          some { clicked with selected := true } := by
        rw [getFeat_setSelected, if_pos rfl, hf]
        rfl
      have hInv' : SelInv
          { s with
            category := s.category.setSelected p true
            currentSelectedFeature := some p
            events := s.events ++ ["featureSelected"] } := by
        constructor
        · intro c' hc'
          simp only [Option.some.injEq] at hc'
          subst hc'
          exact ⟨{ clicked with selected := true }, hgetp, rfl⟩
        · intro q f hq hsel
          simp only [Option.some.injEq]
          by_cases hpq : p = q
          · exact hpq
          · exfalso
            simp only [getFeat_setSelected, if_neg hpq] at hq
            have := hInv.2 q f hq hsel
            rw [hcur] at this
            cases this
      refine ⟨hInv', huniq _ hInv', fun hcontra => absurd hcontra (by simp),
        fun _ => ⟨rfl, hgetp, fun _ => rfl, fun c'' hc'' => ?_⟩⟩
      cases hc''

/-- A sample unselected feature. -/
def sampleFeat : Feat := ⟨"ft1", false⟩

/-- A clickable sample state with one category, one type, one location and
one unselected feature. -/
def sampleClick : ClickState :=
  { clickable := true
    category := ⟨[⟨[⟨[sampleFeat]⟩]⟩]⟩
    currentSelectedFeature := none
    events := [] }

/-- The path of the sample feature. -/
def samplePath : FeatPath := ⟨0, 0, 0⟩

theorem sampleClick_inv : SelInv sampleClick := by
  constructor
  · intro c hc
    simp [sampleClick] at hc
  · intro q f hq hsel
    exfalso
    obtain ⟨qt, ql, qf⟩ := q
    cases qt with
    | zero =>
      cases ql with
      | zero =>
        cases qf with
        | zero =>
          simp [sampleClick, CategoryModel.getFeat, sampleFeat] at hq
          rw [← hq] at hsel
          simp at hsel
        | succ n => simp [sampleClick, CategoryModel.getFeat] at hq
      | succ n => simp [sampleClick, CategoryModel.getFeat] at hq
    | succ n => simp [sampleClick, CategoryModel.getFeat] at hq

theorem click_selection_invariant_witness :
    SelInv sampleClick ∧
    SelInv
      { clickable := true
        category := (⟨[⟨[⟨[sampleFeat]⟩]⟩]⟩ : CategoryModel).setSelected samplePath true
        currentSelectedFeature := some samplePath
        events := ["featureSelected"] } :=
  ⟨sampleClick_inv,
    (click_selection_invariant sampleClick samplePath sampleFeat _ sampleClick_inv
      rfl rfl rfl).1⟩

end ProtVista
